import Mathlib

/-!
Shallow embedding of the garbage-collection and coalescing engine in
`libs/sm/cleanup.py` (SMGC).  Python functions are translated into
executable Lean definitions: machine state that the code mutates in place
(VDI records, journals, tracker counters) is passed explicitly, external
effects (the VHD tool, tap-disk pause, the control plane) are modelled by
their visible effect on that state, and code that raises an exception
returns `Option`/`Except`.  UUIDs are modelled as `Nat` except where the
code inspects their text (the `OLD_` rename prefix), where `String` is
used.  Byte values and sizes are `Nat`/`Int`; fractional constants
(`TIMEOUT_SAFETY_MARGIN`, the `1.2` size-bump factor, storage speeds) live
in `ℚ`.
-/

namespace SMGC

/-! ### `Util.numBits` / `Util.countBits` (cleanup.py 217–246)

`numBits val`: count of set bits, by the same loop
(`count += val & 1; val >>= 1`). -/

def numBits : Nat → Nat
  | 0 => 0
  | (v + 1) => ((v + 1) % 2) + numBits ((v + 1) / 2)
decreasing_by exact Nat.div_lt_self (Nat.succ_pos v) (by omega)

/-- `Util.countBits(bitmap1, bitmap2)`.  The first loop runs over
`range(lenShort)` OR-ing the common prefix; the second loop is written
`for i in range(i + 1, lenLong)` and relies on the leaked loop variable
`i = lenShort - 1`, so it runs over `range(lenShort, lenLong)` of the
longer bitmap.  When `lenShort = 0` the first loop never runs, `i` is
unbound, and the function raises `NameError`; that error path is `none`. -/
def countBits (bitmap1 bitmap2 : List Nat) : Option Nat :=
  let len1 := bitmap1.length
  let len2 := bitmap2.length
  let lenShort := if len2 > len1 then len1 else len2
  let lenLong := if len2 > len1 then len2 else len1
  let bitmapLong := if len2 > len1 then bitmap2 else bitmap1
  if lenShort = 0 then none
  else some
    ((((List.range lenShort).map
        (fun i => numBits ((bitmap1.getD i 0) ||| (bitmap2.getD i 0)))).sum)
      + (((List.range (lenLong - lenShort)).map
        (fun i => numBits (bitmapLong.getD (lenShort + i) 0))).sum))

/-- `VDI._getCoalescedSizeData` (cleanup.py 1060–1074): the coalesced data
size is the combined block count times `vhdutil.VHD_BLOCK_SIZE` (the block
size is a constant of the external VHD tool, kept as a parameter). -/
def getCoalescedSizeData (vhdBlockSize : Nat) (blocksChild blocksParent : List Nat) :
    Option Nat :=
  (countBits blocksChild blocksParent).map (fun numBlocks => numBlocks * vhdBlockSize)

/-- Specification-side bitmap OR: the shorter bitmap zero-extended to the
longer one, byte-wise OR.  (`x ||| 0 = x`, so the tail of the longer list
is kept as is.) -/
def orZipExt : List Nat → List Nat → List Nat
  | [], l2 => l2
  | l1, [] => l1
  | a :: as, b :: bs => (a ||| b) :: orZipExt as bs

/-- Specification-side popcount of a byte list. -/
def popcountList (l : List Nat) : Nat := (l.map numBits).sum

/-! ### `VDI.canLiveCoalesce` (cleanup.py 652–667)

Constants from the `VDI` class: `LIVE_LEAF_COALESCE_MAX_SIZE = 20 MiB`,
`LIVE_LEAF_COALESCE_TIMEOUT = 10`, `TIMEOUT_SAFETY_MARGIN = 0.5`.
`speed` is a Python float or `None`; `if speed:` is falsy for both `None`
and `0.0`.  The `leaf-coalesce` config value is read through
`getConfig(DB_LEAFCLSC)` and compared with `LEAFCLSC_FORCE = "force"`. -/

def LIVE_LEAF_COALESCE_MAX_SIZE : Nat := 20 * 1024 * 1024
def LIVE_LEAF_COALESCE_TIMEOUT : Nat := 10
def TIMEOUT_SAFETY_MARGIN : ℚ := 1 / 2

/-- `vdi.canLiveCoalesce(speed)`.  `allocated` is `self.getAllocatedSize()`
(`_sizeAllocated`), `leafclsc` the `leaf-coalesce` config value.  The size
test with a known speed is Python float floor division:
`vhd_size // speed < allowedDownTime`. -/
def canLiveCoalesce (allocated : Nat) (speed : Option ℚ) (leafclsc : String) : Bool :=
  let allowedDownTime : ℚ := TIMEOUT_SAFETY_MARGIN * (LIVE_LEAF_COALESCE_TIMEOUT : ℚ)
  let feasibleSize :=
    match speed with
    | some sp =>
        if sp ≠ 0 then
          decide (((⌊(allocated : ℚ) / sp⌋ : ℤ) : ℚ) < allowedDownTime)
        else
          decide (allocated < LIVE_LEAF_COALESCE_MAX_SIZE)
    | none => decide (allocated < LIVE_LEAF_COALESCE_MAX_SIZE)
  feasibleSize || (leafclsc == "force")

/-! ### `SR.getStorageSpeed` (cleanup.py 2178–2211)

The per-SR speed log file is abstracted by what `readlines` + float
parsing sees: the file may be absent, hold unparsable text, or hold a
list of float samples. -/

inductive SpeedLog where
  | absent
  | unparsable
  | samples (l : List ℚ)
  deriving DecidableEq, Repr

/-- `sr.getStorageSpeed()`: `None` when the file is missing, unparsable or
empty; otherwise the arithmetic mean of the samples, turned into `None`
when that mean is `≤ 0` (defensive check in the source). -/
def getStorageSpeed (log : SpeedLog) : Option ℚ :=
  match log with
  | .absent => none
  | .unparsable => none
  | .samples content =>
      if content.length ≠ 0 then
        let speed := content.sum / (content.length : ℚ)
        if speed ≤ 0 then none else some speed
      else none

/-! ### `SR.pauseVDIs` / `SR.unpauseVDIs` (cleanup.py 1878–1903)

`ok v` tells whether `vdi.pause()` succeeds for `v` (`tap_pause` is an
external call).  The loop pauses VDIs in order, stops at the first
failure, then unpauses exactly the already-paused ones and raises
`SMException`.  The result carries the list of VDIs that were paused when
the call returned (`.ok`) or the list handed to `unpauseVDIs` before the
raise (`.error`). -/

def pauseLoop (ok : Nat → Bool) : List Nat → List Nat → (List Nat × Bool)
  | [], paused => (paused, false)
  | v :: rest, paused =>
      if ok v then pauseLoop ok rest (paused ++ [v]) else (paused, true)

def pauseVDIs (ok : Nat → Bool) (vdiList : List Nat) : Except (List Nat) (List Nat) :=
  let r := pauseLoop ok vdiList []
  if r.2 then .error r.1 else .ok r.1

/-! ### `SR._buildTree` (cleanup.py 2383–2403)

Node data as `_buildTree` reads it: the UUID and the `parentUuid` loaded
by the scan (`""` when the node is a root).  `TMP_RENAME_PREFIX = "OLD_"`.
An unresolved parent raises `SMException` (the `.error` case, carrying the
offending node's UUID) unless the node's UUID has the rename prefix or
`force` is set, in which case the node is appended to `self.vdiTrees`.
The returned list is `vdiTrees`, the roots of the rebuilt forest. -/

def TMP_RENAME_PREFIX : String := "OLD_"

/-- Python `s.startswith(pre)`, phrased over the character lists so that
it evaluates by `decide`. -/
def strStartsWith (s pre : String) : Bool := pre.toList.isPrefixOf s.toList

structure BVDI where
  uuid : String
  parentUuid : String
  deriving DecidableEq, Repr

def presentIn (vdis : List BVDI) (u : String) : Bool :=
  vdis.any (fun r => r.uuid == u)

def buildTreeAux (present : String → Bool) (force : Bool) :
    List BVDI → Except String (List String)
  | [] => .ok []
  | v :: rest =>
      if v.parentUuid ≠ "" then
        if present v.parentUuid then
          buildTreeAux present force rest
        else if strStartsWith v.uuid TMP_RENAME_PREFIX then
          (buildTreeAux present force rest).map (fun roots => v.uuid :: roots)
        else if force then
          (buildTreeAux present force rest).map (fun roots => v.uuid :: roots)
        else
          .error v.uuid
      else
        (buildTreeAux present force rest).map (fun roots => v.uuid :: roots)

def buildTree (vdis : List BVDI) (force : Bool) : Except String (List String) :=
  buildTreeAux (presentIn vdis) force vdis

/-! ### `SR.CoalesceTracker` (cleanup.py 2022–2092)

Constants: `GRACE_ITERATIONS = 2`, `MAX_ITERATIONS_NO_PROGRESS = 3`,
`MAX_ITERATIONS = 10`, `MAX_INCREASE_FROM_MINIMUM = 1.2`.  The tracker's
mutable fields that influence `abortCoalesce` are `its`, `itsNoProgress`,
`minSize` (initially `float("inf")`, modelled as `none`) and
`grace_remaining`.  Sizes are Python ints (`Int`); the `1.2 × minimum`
comparison happens in float arithmetic, modelled in `ℚ`. -/

def GRACE_ITERATIONS : Nat := 2
def MAX_ITERATIONS_NO_PROGRESS : Nat := 3
def MAX_ITERATIONS : Nat := 10
def MAX_INCREASE_FROM_MINIMUM : ℚ := 6 / 5

structure TrackerState where
  itsNoProgress : Nat
  its : Nat
  minSize : Option Int
  grace_remaining : Int
  deriving DecidableEq, Repr

def initTracker : TrackerState :=
  { itsNoProgress := 0, its := 0, minSize := none,
    grace_remaining := (GRACE_ITERATIONS : Int) }

/-- `if x < self.minSize: self.minSize = x` (`float("inf")` compares above
every int). -/
def updMin (m : Option Int) (x : Int) : Option Int :=
  match m with
  | none => some x
  | some v => if x < v then some x else some v

/-- `tracker.abortCoalesce(prevSize, curSize)`: returns the updated
tracker state and the boolean the call returns.  Field updates and checks
in source order: bump `its`, fold `curSize` then `prevSize` into
`minSize`; return `False` on the first iteration; return `False` when
`prevSize >= curSize` ("made progress"), else bump `itsNoProgress`; then
abort when `its > MAX_ITERATIONS`, when
`itsNoProgress > MAX_ITERATIONS_NO_PROGRESS`, or when
`curSize > 1.2 * minSize` has exhausted `grace_remaining`. -/
def abortCoalesce (st : TrackerState) (prevSize curSize : Int) :
    TrackerState × Bool :=
  let st := { st with its := st.its + 1 }
  let st := { st with minSize := updMin (updMin st.minSize curSize) prevSize }
  if st.its = 1 then
    (st, false)
  else if prevSize < curSize then
    let st := { st with itsNoProgress := st.itsNoProgress + 1 }
    if st.its > MAX_ITERATIONS then
      (st, true)
    else if st.itsNoProgress > MAX_ITERATIONS_NO_PROGRESS then
      (st, true)
    else
      let bump :=
        match st.minSize with
        | some m => decide ((curSize : ℚ) > MAX_INCREASE_FROM_MINIMUM * (m : ℚ))
        | none => false
      if bump then
        let st := { st with grace_remaining := st.grace_remaining - 1 }
        if st.grace_remaining = 0 then (st, true) else (st, false)
      else
        (st, false)
  else
    (st, false)

/-- Feed a sequence of `(prevSize, curSize)` pairs to one tracker, the way
`SR._coalesceLeaf` does: stop at the first call that returns `True`.
`true` iff some call in the sequence reported abort. -/
def trackerRun (st : TrackerState) : List (Int × Int) → Bool
  | [] => false
  | (p, c) :: rest =>
      let r := abortCoalesce st p c
      if r.2 then true else trackerRun r.1 rest

/-! ### The `SR._coalesceLeaf` iteration loop (cleanup.py 2122–2137)

```
tracker = self.CoalesceTracker(self)
while not vdi.canLiveCoalesce(self.getStorageSpeed()):
    prevSizeVHD = vdi.getSizeVHD()
    if not self._snapshotCoalesce(vdi): return False
    if tracker.abortCoalesce(prevSizeVHD, vdi.getSizeVHD()):
        tracker.printReasoning()
        raise util.SMException(...)
tracker.printSummary()
return self._liveLeafCoalesce(vdi)
```

The loop's environment is abstracted by its observable behaviour, as the
claim asks: `canLive i` is what `vdi.canLiveCoalesce(...)` returns at the
start of iteration `i`, `size i` is `vdi.getSizeVHD()` before iteration
`i` (so iteration `i` feeds `(size i, size (i+1))` to the tracker), and
`_snapshotCoalesce` always returns `True`.  `fuel` bounds how many loop
iterations we are willing to unfold; the outcomes are
`some true` (left the loop towards `_liveLeafCoalesce`), `some false`
(tracker abort, `SMException` raised), `none` (still looping after `fuel`
iterations). -/
def coalesceLeafLoop (canLive : Nat → Bool) (size : Nat → Int) :
    Nat → Nat → TrackerState → Option Bool
  | 0, _, _ => none
  | fuel + 1, i, st =>
      if canLive i then some true
      else
        let r := abortCoalesce st (size i) (size (i + 1))
        if r.2 then some false
        else coalesceLeafLoop canLive size fuel (i + 1) r.1

/-! ### The VHD forest: `VDI.getAllPrunable`, `SR.findGarbage`,
`VDI.isCoalesceable`, `VDI.isLeafCoalesceable` (cleanup.py 636–691, 1853–1857)

A scanned tree is represented inductively: each VDI object carries the
attributes these predicates read (`uuid`, `hidden`, `scanError`) and its
`children` list.  `jrn u` models
`self.sr.journaler.get(self.JRN_RELINK, u)` being truthy. -/

structure VNode where
  uuid : Nat
  hidden : Bool
  scanError : Bool
  deriving DecidableEq, Repr

inductive VTree where
  | mk (nd : VNode) (children : List VTree)
  deriving Repr

def VTree.nd : VTree → VNode
  | .mk nd _ => nd

def VTree.children : VTree → List VTree
  | .mk _ children => children

/-- Structural equality of trees, playing the role of Python's `==` on
VDI objects in `child not in childList` (within one scan, structural
equality coincides with object identity: UUIDs are unique). -/
def VTree.beq (t1 t2 : VTree) : Bool :=
  match t1, t2 with
  | .mk n1 cs1, .mk n2 cs2 =>
      n1 == n2 && cs1.length == cs2.length &&
      (cs1.zip cs2).attach.all (fun p => VTree.beq p.1.1 p.1.2)
termination_by sizeOf t1
decreasing_by
  obtain ⟨⟨x, y⟩, hp⟩ := p
  have hm := (List.of_mem_zip hp).1
  have := List.sizeOf_lt_of_mem hm
  simp only [VTree.mk.sizeOf_spec] at *
  omega

instance vtreeBEq : BEq VTree := ⟨VTree.beq⟩

/-- `vdi.getAllPrunable()`.  Leaf case: kept back while a `relink` journal
entry exists; otherwise prunable iff `not scanError and hidden`.  Interior
case: collect every child's prunable list; `self` is appended when every
child occurs in its own prunable list (`child not in childList` clears
`thisPrunable`) and `self` has no scan error. -/
def getAllPrunable (jrn : Nat → Bool) (t : VTree) : List VTree :=
  match t with
  | .mk nd children =>
    if children.isEmpty then
      if jrn nd.uuid then []
      else if !nd.scanError && nd.hidden then [.mk nd children]
      else []
    else
      let results := children.attach.map
        (fun c => (c.1, getAllPrunable jrn c.1))
      let vdiList := (results.map (fun r => r.2)).flatten
      let thisPrunable := results.all (fun r => r.2.contains r.1)
      if !nd.scanError && thisPrunable then vdiList ++ [.mk nd children]
      else vdiList
decreasing_by
  have := List.sizeOf_lt_of_mem c.2
  simp only [VTree.mk.sizeOf_spec] at *
  omega

/-- `sr.findGarbage()`: the prunable lists of all tree roots, concatenated. -/
def findGarbage (jrn : Nat → Bool) (vdiTrees : List VTree) : List VTree :=
  (vdiTrees.map (getAllPrunable jrn)).flatten

/-- `vdi.isCoalesceable()`, with the node's resolved parent passed
explicitly (`none` when `self.parent` is `None`): no scan error, a parent
whose `children` list has exactly one element, hidden, and at least one
child. -/
def isCoalesceableP (parent : Option VTree) (t : VTree) : Bool :=
  !t.nd.scanError &&
  (match parent with
   | none => false
   | some p => p.children.length == 1) &&
  t.nd.hidden &&
  decide (t.children.length > 0)

/-- `vdi.isLeafCoalesceable()`: no scan error, a parent whose `children`
list has exactly one element, not hidden, and no children. -/
def isLeafCoalesceableP (parent : Option VTree) (t : VTree) : Bool :=
  !t.nd.scanError &&
  (match parent with
   | none => false
   | some p => p.children.length == 1) &&
  !t.nd.hidden &&
  t.children.length == 0

/-! ### `SR.findCoalesceable` (cleanup.py 1672–1721)

Inputs that `findCoalesceable` reads from the SR object and its
collaborators, passed explicitly:
* `coalesceDisabled`: whether the SR's other-config `coalesce` switch is
  the string `"false"`;
* `relinkJournal`: the UUIDs in `journaler.getAll(JRN_RELINK)`, in
  iteration order, with `present u` telling whether `getVDI(u)` finds a
  VDI;
* `failed`: `self._failedCoalesceTargets`;
* `vdis`: the UUIDs of `self.vdis.values()` in iteration order, with
  `isCoal u` the value of `vdi.isCoalesceable()`;
* `height u`: `u.getTreeRoot().getTreeHeight()` (the recursive height
  computation over the object graph, abstracted as a function);
* `extraSpace u`: `u._calcExtraSpaceForCoalescing()` (depends on the
  external VHD block bitmaps);
* `freeSpace`: `self.getFreeSpace()`.

The candidates are grouped by tree height into an insertion-ordered dict
and the height groups visited in descending height order; the first
candidate whose predicted extra space fits in the free space is returned,
the others are recorded in `no_space_candidates` (not modelled: it does
not affect the returned value). -/

def insertDesc (x : Nat) : List Nat → List Nat
  | [] => [x]
  | y :: ys => if x ≥ y then x :: y :: ys else y :: insertDesc x ys

/-- `heights.sort(reverse=True)` on the list of distinct group keys. -/
def sortDesc (l : List Nat) : List Nat := l.foldr insertDesc []

def findCoalesceable (coalesceDisabled : Bool) (relinkJournal : List Nat)
    (present : Nat → Bool) (failed : List Nat) (vdis : List Nat)
    (isCoal : Nat → Bool) (height : Nat → Nat)
    (extraSpace : Nat → Int) (freeSpace : Int) : Option Nat :=
  if coalesceDisabled then none
  else
    match relinkJournal.find? (fun u => present u && !(failed.contains u)) with
    | some u => some u
    | none =>
        let candidates := vdis.filter (fun u => isCoal u && !(failed.contains u))
        let heights := sortDesc (candidates.map height).eraseDups
        let ordered := heights.flatMap
          (fun h => candidates.filter (fun c => height c == h))
        ordered.find? (fun c => extraSpace c ≤ freeSpace)

/-! ### SR state and `SR._coalesce` (cleanup.py 1987–2020, 926–936, 1866–1873)

State the inline-coalesce protocol touches.  Each VDI record mirrors the
Python object's attributes (`parent` is the resolved in-memory reference,
`parentOnDisk` the VHD header parent pointer written by
`vhdutil.setParent`); `vdis` mirrors `self.vdis` (keyed by `uuid`),
`vdiTrees` the root list, `journal` the journal store restricted to the
keyed `(kind, uuid)` records, and `files` the set of backing files
present in the SR (`vdi.delete()` unlinks the file).  `SR._coalesce` is
modelled for a quiescent SR: the rescan between `_doCoalesce` and
`_relinkSkip` reloads exactly the state it wrote (no concurrent
snapshot/clone reshapes the tree), so `self.scan()` is the identity. -/

structure VDIRec where
  uuid : Nat
  parent : Option Nat
  parentOnDisk : Option Nat
  children : List Nat
  sizeVirt : Int
  hidden : Bool
  scanError : Bool
  deriving DecidableEq, Repr

inductive JKind where
  | coalesce
  | relink
  | leaf
  deriving DecidableEq, Repr

structure SRState where
  vdis : List VDIRec
  vdiTrees : List Nat
  journal : List (JKind × Nat)
  files : List Nat
  deriving DecidableEq, Repr

/-- `self.getVDI(uuid)` / `self.vdis.get(uuid)`. -/
def getVDI (s : SRState) (u : Nat) : Option VDIRec :=
  s.vdis.find? (fun r => r.uuid == u)

/-- Replace the record of `u` (in-place mutation of the Python object). -/
def updVDI (s : SRState) (u : Nat) (f : VDIRec → VDIRec) : SRState :=
  { s with vdis := s.vdis.map (fun r => if r.uuid == u then f r else r) }

/-- `self.journaler.get(kind, uuid)` is truthy. -/
def journalHas (s : SRState) (k : JKind) (u : Nat) : Bool :=
  s.journal.any (fun e => e == (k, u))

/-- `self.journaler.create(kind, uuid, val)` (the value is always `"1"`
for the kinds used here). -/
def journalCreate (s : SRState) (k : JKind) (u : Nat) : SRState :=
  { s with journal := s.journal ++ [(k, u)] }

/-- `self.journaler.remove(kind, uuid)`: drops the keyed record. -/
def journalRemove (s : SRState) (k : JKind) (u : Nat) : SRState :=
  { s with journal := s.journal.filter (fun e => e ≠ (k, u)) }

/-- `vdi._doCoalesce()` as it acts on the modelled state: validation and
the VHD data copy touch only file contents; the state change is
`self.parent._increaseSizeVirt(self.sizeVirt)`, which returns at once
when the parent is already at least as large and otherwise grows it to
the requested size. -/
def doCoalesce (s : SRState) (u p : Nat) : SRState :=
  match getVDI s u with
  | none => s
  | some v =>
      updVDI s p (fun r =>
        if r.sizeVirt ≥ v.sizeVirt then r else { r with sizeVirt := v.sizeVirt })

/-- `child._setParent(parentObj)`: `vhdutil.setParent` rewrites the VHD
header, then `self.parent`/`self.parentUuid` are set and the child is
appended to `parent.children`. -/
def setParentTo (s : SRState) (c p : Nat) : SRState :=
  let s1 := updVDI s c (fun r => { r with parentOnDisk := some p, parent := some p })
  updVDI s1 p (fun r => { r with children := r.children ++ [c] })

/-- `vdi._relinkSkip()`: every child of `u` is re-pointed to `p`
(`u.parent`), then `self.children = []`. -/
def relinkSkip (s : SRState) (u p : Nat) : SRState :=
  match getVDI s u with
  | none => s
  | some v =>
      let s' := v.children.foldl (fun acc c => setParentTo acc c p) s
      updVDI s' u (fun r => { r with children := [] })

/-- `SR.deleteVDI(vdi)`: remove from `self.vdis`, unhook from
`parent.children`, drop from `vdiTrees` when present, and physically
delete (`vdi.delete()` unlinks the backing file). -/
def deleteVDI (s : SRState) (u : Nat) : SRState :=
  match getVDI s u with
  | none => s
  | some v =>
      let s1 := { s with vdis := s.vdis.filter (fun r => r.uuid ≠ u) }
      let s2 :=
        match v.parent with
        | some p => updVDI s1 p (fun r => { r with children := r.children.erase u })
        | none => s1
      let s3 := { s2 with vdiTrees := s2.vdiTrees.erase u }
      { s3 with files := s3.files.erase u }

/-- `SR._coalesce(vdi)` on a quiescent SR.  When a `relink` journal entry
for `vdi` exists the data-copy phase is skipped (crash recovery);
otherwise: create `coalesce(vdi)`, run `vdi._doCoalesce()`, swap the
`coalesce` journal entry for a `relink` one.  Then (under the SR lock,
after a rescan that reloads the same state) `vdi._relinkSkip()`, remove
the `relink` entry and delete `vdi`. -/
def srCoalesce (s : SRState) (u : Nat) : SRState :=
  match getVDI s u with
  | none => s
  | some v =>
      match v.parent with
      | none => s
      | some p =>
          let s1 :=
            if journalHas s .relink u then s
            else
              let sA := journalCreate s .coalesce u
              let sB := doCoalesce sA u p
              let sC := journalRemove sB .coalesce u
              journalCreate sC .relink u
          let s2 := relinkSkip s1 u p
          let s3 := journalRemove s2 .relink u
          deleteVDI s3 u

/-! ## Theorems -/

/-- C3: for a leaf VDI, `canLiveCoalesce(speed)` returns true iff: with a
known positive running-average speed, the allocated size divided by the
speed is below `TIMEOUT_SAFETY_MARGIN (0.5) * LIVE_LEAF_COALESCE_TIMEOUT
(10 s)`; with no known speed, the allocated size is below
`LIVE_LEAF_COALESCE_MAX_SIZE` (20 MiB); or the VDI's leaf-coalesce config
key equals `"force"`. -/
theorem canLiveCoalesce_iff (allocated : Nat) (speed : Option ℚ) (leafclsc : String)
    (hsp : speed = none ∨ ∃ sp, speed = some sp ∧ 0 < sp) :
    canLiveCoalesce allocated speed leafclsc = true ↔
      ((∃ sp, speed = some sp ∧
          (allocated : ℚ) / sp <
            TIMEOUT_SAFETY_MARGIN * (LIVE_LEAF_COALESCE_TIMEOUT : ℚ)) ∨
       (speed = none ∧ allocated < LIVE_LEAF_COALESCE_MAX_SIZE) ∨
       leafclsc = "force") := by
  have h5 : TIMEOUT_SAFETY_MARGIN * (LIVE_LEAF_COALESCE_TIMEOUT : ℚ) = ((5 : ℤ) : ℚ) := by
    norm_num [TIMEOUT_SAFETY_MARGIN, LIVE_LEAF_COALESCE_TIMEOUT]
  rcases hsp with h | ⟨sp, hsp, hpos⟩
  · subst h
    simp [canLiveCoalesce]
  · subst hsp
    have hne : sp ≠ 0 := ne_of_gt hpos
    have hfloor : (((⌊(allocated : ℚ) / sp⌋ : ℤ) : ℚ) <
        TIMEOUT_SAFETY_MARGIN * (LIVE_LEAF_COALESCE_TIMEOUT : ℚ)) ↔
        ((allocated : ℚ) / sp < TIMEOUT_SAFETY_MARGIN * (LIVE_LEAF_COALESCE_TIMEOUT : ℚ)) := by
      rw [h5, Int.cast_lt, Int.floor_lt]
    simp only [canLiveCoalesce, ne_eq, hne, not_false_eq_true, if_true,
      Bool.or_eq_true, decide_eq_true_eq, beq_iff_eq]
    rw [hfloor]
    simp

/-- Witness for `canLiveCoalesce_iff`: allocated 100 bytes at 25 bytes/s →
4 s < 5 s, feasible. -/
theorem canLiveCoalesce_iff_witness :
    canLiveCoalesce 100 (some 25) "" = true :=
  (canLiveCoalesce_iff 100 (some 25) "" (Or.inr ⟨25, rfl, by norm_num⟩)).mpr
    (Or.inl ⟨25, rfl, by norm_num [TIMEOUT_SAFETY_MARGIN, LIVE_LEAF_COALESCE_TIMEOUT]⟩)

/-- C10: whenever `getStorageSpeed` returns a speed, it is the strictly
positive arithmetic mean of the parsed samples of the speed-log file (for
an absent, unparsable or empty file the result is `None`), and
`canLiveCoalesce` fed such a speed takes the division branch with that
nonzero divisor. -/
theorem getStorageSpeed_safe (log : SpeedLog) (sp : ℚ)
    (h : getStorageSpeed log = some sp) :
    0 < sp ∧ sp ≠ 0 ∧
    (∃ content, log = .samples content ∧ sp = content.sum / (content.length : ℚ)) ∧
    (∀ allocated leafclsc, canLiveCoalesce allocated (some sp) leafclsc =
      (decide (((⌊(allocated : ℚ) / sp⌋ : ℤ) : ℚ) <
          TIMEOUT_SAFETY_MARGIN * (LIVE_LEAF_COALESCE_TIMEOUT : ℚ)) ||
        (leafclsc == "force"))) := by
  cases log with
  | absent => simp [getStorageSpeed] at h
  | unparsable => simp [getStorageSpeed] at h
  | samples content =>
      simp only [getStorageSpeed] at h
      split at h
      · split at h
        · exact absurd h (by simp)
        · rename_i hlen hle
          obtain rfl : content.sum / (content.length : ℚ) = sp := by injection h
          have hpos : 0 < content.sum / (content.length : ℚ) := lt_of_not_ge hle
          refine ⟨hpos, ne_of_gt hpos, ⟨content, rfl, rfl⟩, ?_⟩
          intro allocated leafclsc
          simp [canLiveCoalesce, ne_of_gt hpos]
      · exact absurd h (by simp)

/-- Witness for `getStorageSpeed_safe`: a log of samples `[1, 2, 3]`
yields the positive mean 2. -/
theorem getStorageSpeed_safe_witness :
    getStorageSpeed (.samples [1, 2, 3]) = some 2 ∧ (0 : ℚ) < 2 :=
  ⟨by norm_num [getStorageSpeed],
   (getStorageSpeed_safe (.samples [1, 2, 3]) 2 (by norm_num [getStorageSpeed])).1⟩

/-- Unfolding of the pause loop: it pauses the longest `ok` prefix and
reports whether it stopped early. -/
theorem pauseLoop_eq (ok : Nat → Bool) (l acc : List Nat) :
    pauseLoop ok l acc =
      if l.all ok then (acc ++ l, false) else (acc ++ l.takeWhile ok, true) := by
  induction l generalizing acc with
  | nil => simp [pauseLoop]
  | cons v rest ih =>
      by_cases hv : ok v
      · simp only [pauseLoop, hv, if_true, ih, List.all_cons, Bool.true_and,
          List.takeWhile_cons, List.append_assoc, List.singleton_append]
      · simp [pauseLoop, hv, List.all_cons, List.takeWhile_cons]

/-- C8: `SR.pauseVDIs` is all-or-nothing: either every VDI in the list is
paused and the call returns normally (`.ok` with all of them paused), or
pausing some VDI fails and exactly the successfully paused prefix is
unpaused again before the exception (`.error` carries the list passed to
`unpauseVDIs`). -/
theorem pauseVDIs_allOrNothing (ok : Nat → Bool) (vdiList : List Nat) :
    (vdiList.all ok = true ∧ pauseVDIs ok vdiList = .ok vdiList) ∨
    (vdiList.all ok = false ∧
      pauseVDIs ok vdiList = .error (vdiList.takeWhile ok)) := by
  by_cases h : vdiList.all ok
  · exact Or.inl ⟨h, by simp [pauseVDIs, pauseLoop_eq, h]⟩
  · exact Or.inr ⟨by simpa using h, by simp [pauseVDIs, pauseLoop_eq, h]⟩

lemma updMin_some (v x : Int) : updMin (some v) x = some (min x v) := by
  simp only [updMin, min_def]
  rcases lt_trichotomy x v with h | h | h
  · rw [if_pos h, if_pos h.le]
  · subst h; simp
  · rw [if_neg (not_lt.mpr h.le), if_neg (by omega)]

/-- The minimum the tracker holds after one `abortCoalesce(p, c)` call
starting from `minSize = m`. -/
def trackedMin (m : Option Int) (p c : Int) : Int :=
  match m with
  | none => min p c
  | some v => min p (min c v)

lemma updMin_updMin (m : Option Int) (p c : Int) :
    updMin (updMin m c) p = some (trackedMin m p c) := by
  cases m with
  | none => rw [show updMin none c = some c from rfl, updMin_some, trackedMin]
  | some v => rw [updMin_some, updMin_some, trackedMin]

/-- C4 (amended): one `abortCoalesce(prevSize, curSize)` call reports
abort iff this is not the first iteration, the size strictly increased
(`prevSize < curSize`; an unchanged size counts as progress and returns
`False` early), and either the iteration count exceeds
`MAX_ITERATIONS (10)`, or the count of strictly-increasing iterations
exceeds `MAX_ITERATIONS_NO_PROGRESS (3)`, or `curSize` exceeds
`MAX_INCREASE_FROM_MINIMUM (1.2) ×` the minimum observed size while this
is the second such excession overall (`grace_remaining = 1`; the grace
counter is decremented only on strictly-increasing iterations and never
reset, so the excessions need not be consecutive). -/
theorem abortCoalesce_spec (st : TrackerState) (p c : Int) :
    (abortCoalesce st p c).2 = true ↔
      (st.its ≠ 0 ∧ p < c ∧
        (st.its + 1 > MAX_ITERATIONS ∨
         st.itsNoProgress + 1 > MAX_ITERATIONS_NO_PROGRESS ∨
         (st.grace_remaining = 1 ∧
          (c : ℚ) > MAX_INCREASE_FROM_MINIMUM *
            ((trackedMin st.minSize p c : Int) : ℚ)))) := by
  simp only [abortCoalesce, updMin_updMin]
  split_ifs with h1 h2 h3 h4 h5 h6 <;>
    simp only [decide_eq_true_eq] at * <;>
    simp only [iff_true, iff_false, true_iff, false_iff]
  · rintro ⟨h, _, _⟩; omega
  · exact ⟨by omega, h2, Or.inl h3⟩
  · exact ⟨by omega, h2, Or.inr (Or.inl h4)⟩
  · exact ⟨by omega, h2, Or.inr (Or.inr ⟨by omega, h5⟩)⟩
  · rintro ⟨_, _, (h | h | ⟨hg, hc⟩)⟩
    · omega
    · omega
    · omega
  · rintro ⟨_, _, (h | h | ⟨hg, hc⟩)⟩
    · omega
    · omega
    · exact h5 hc
  · rintro ⟨_, hpc, _⟩
    exact h2 hpc

/-- C4 counterexample: twelve iterations with unchanged size
(`prevSize = curSize = 100`).  Under the claim the tracker must abort
(the iteration count exceeds `MAX_ITERATIONS = 10`, and every iteration
is decrease-free so their count exceeds
`MAX_ITERATIONS_NO_PROGRESS = 3`), but `abortCoalesce` treats
`prevSize = curSize` as progress and returns `False` on every call. -/
theorem abortCoalesce_counterexample :
    (List.replicate 12 ((100 : Int), (100 : Int))).length > MAX_ITERATIONS ∧
    (∀ pr ∈ List.replicate 12 ((100 : Int), (100 : Int)), ¬ pr.1 > pr.2) ∧
    (List.replicate 12 ((100 : Int), (100 : Int))).length >
      MAX_ITERATIONS_NO_PROGRESS ∧
    trackerRun initTracker (List.replicate 12 ((100 : Int), (100 : Int))) = false := by
  refine ⟨by decide, by decide, by decide, by decide⟩

lemma abortCoalesce_first (st : TrackerState) (p c : Int) (h : st.its = 0) :
    (abortCoalesce st p c).2 = false ∧
    (abortCoalesce st p c).1.its = 1 ∧
    (abortCoalesce st p c).1.itsNoProgress = st.itsNoProgress := by
  simp [abortCoalesce, h]

lemma abortCoalesce_increase_state (st : TrackerState) (p c : Int)
    (h1 : st.its ≠ 0) (h2 : p < c) :
    (abortCoalesce st p c).1.its = st.its + 1 ∧
    (abortCoalesce st p c).1.itsNoProgress = st.itsNoProgress + 1 := by
  simp only [abortCoalesce, updMin_updMin]
  split_ifs <;> simp_all

lemma abortCoalesce_abort_of_noProgress (st : TrackerState) (p c : Int)
    (h1 : st.its ≠ 0) (h2 : p < c)
    (h3 : st.itsNoProgress + 1 > MAX_ITERATIONS_NO_PROGRESS) :
    (abortCoalesce st p c).2 = true := by
  simp only [abortCoalesce, updMin_updMin]
  split_ifs <;> simp_all

lemma coalesceLeafLoop_succ (canLive : Nat → Bool) (size : Nat → Int)
    (fuel i : Nat) (st : TrackerState) :
    coalesceLeafLoop canLive size (fuel + 1) i st =
      if canLive i then some true
      else if (abortCoalesce st (size i) (size (i + 1))).2 then some false
      else coalesceLeafLoop canLive size fuel (i + 1)
        (abortCoalesce st (size i) (size (i + 1))).1 := rfl

lemma coalesceLeafLoop_resolves (canLive : Nat → Bool) (size : Nat → Int)
    (hinc : ∀ i, size i < size (i + 1)) :
    ∀ (k : Nat) (st : TrackerState) (i : Nat), st.its ≠ 0 →
      MAX_ITERATIONS_NO_PROGRESS ≤ st.itsNoProgress + k →
      coalesceLeafLoop canLive size (k + 1) i st ≠ none := by
  intro k
  induction k with
  | zero =>
      intro st i h1 h2
      rw [coalesceLeafLoop_succ]
      by_cases hcl : canLive i
      · simp [hcl]
      · rw [if_neg hcl,
          abortCoalesce_abort_of_noProgress st (size i) (size (i + 1)) h1
            (hinc i) (by omega)]
        simp
  | succ k ih =>
      intro st i h1 h2
      rw [coalesceLeafLoop_succ]
      by_cases hcl : canLive i
      · simp [hcl]
      · rw [if_neg hcl]
        by_cases hab : (abortCoalesce st (size i) (size (i + 1))).2 = true
        · rw [hab]; simp
        · rw [Bool.not_eq_true] at hab
          rw [hab]
          simp only [Bool.false_eq_true, if_false]
          obtain ⟨hits, hnp⟩ :=
            abortCoalesce_increase_state st (size i) (size (i + 1)) h1 (hinc i)
          exact ih _ (i + 1) (by omega) (by omega)

/-- C5 (amended): the `_coalesceLeaf` iteration loop is not bounded by the
tracker in general, because an iteration whose size does not strictly
grow never trips the tracker; but when every snapshot-coalesce iteration
strictly increases the leaf's physical size, the loop resolves (reaches
the final live step or raises through the tracker) within 6 iterations:
one initial grace iteration plus at most
`MAX_ITERATIONS_NO_PROGRESS (3) + 1` counted no-progress iterations. -/
theorem coalesceLeafLoop_bounded (canLive : Nat → Bool) (size : Nat → Int)
    (hinc : ∀ i, size i < size (i + 1)) :
    coalesceLeafLoop canLive size 6 0 initTracker ≠ none := by
  show coalesceLeafLoop canLive size (5 + 1) 0 initTracker ≠ none
  rw [coalesceLeafLoop_succ]
  by_cases hcl : canLive 0
  · simp [hcl]
  · rw [if_neg hcl]
    obtain ⟨hres, hits, hnp⟩ :=
      abortCoalesce_first initTracker (size 0) (size (0 + 1)) rfl
    rw [hres]
    simp only [Bool.false_eq_true, if_false]
    have h3 : MAX_ITERATIONS_NO_PROGRESS = 3 := rfl
    have h0 : initTracker.itsNoProgress = 0 := rfl
    exact coalesceLeafLoop_resolves canLive size hinc 4 _ 1 (by omega) (by omega)

/-- Witness for `coalesceLeafLoop_bounded`: strictly growing sizes
`size i = i`, live-coalesce never feasible. -/
theorem coalesceLeafLoop_bounded_witness :
    coalesceLeafLoop (fun _ => false) (fun i => (i : Int)) 6 0 initTracker ≠ none :=
  coalesceLeafLoop_bounded (fun _ => false) (fun i => (i : Int))
    (fun i => by push_cast; omega)

/-- C5 counterexample: with `canLiveCoalesce` never true and a constant
leaf size, the loop is still running after 12 iterations — neither the
live step nor a tracker abort is reached — so the iteration count is not
bounded by `MAX_ITERATIONS = 10` (nor by any bound). -/
theorem coalesceLeafLoop_counterexample :
    MAX_ITERATIONS < 12 ∧
    coalesceLeafLoop (fun _ => false) (fun _ => (100 : Int)) 12 0 initTracker =
      none := by
  refine ⟨by decide, by decide⟩

/-- C2 counterexample: a VDI with a pending `relink` journal entry is
returned by `findCoalesceable` without any space check, to finish an
interrupted coalesce.  Here VDI 7 has a relink journal entry, its
predicted extra space is 100 bytes, and the free space is 0; it is
returned nonetheless. -/
theorem findCoalesceable_counterexample :
    findCoalesceable false [7] (fun _ => true) [] [] (fun _ => true)
        (fun _ => 0) (fun _ => (100 : Int)) 0 = some 7 ∧
    ¬ ((100 : Int) ≤ (0 : Int)) :=
  ⟨rfl, by decide⟩

/-- C2 (amended): every VDI selected by `findCoalesceable` through the
candidate scan — that is, any returned VDI whose UUID has no pending
`relink` journal entry — satisfies the space law
`_calcExtraSpaceForCoalescing() ≤ getFreeSpace()` evaluated during the
call; VDIs with a pending `relink` entry are returned first without the
check (their data copy is already done). -/
theorem findCoalesceable_space_law (coalesceDisabled : Bool)
    (relinkJournal : List Nat) (present : Nat → Bool) (failed : List Nat)
    (vdis : List Nat) (isCoal : Nat → Bool) (height : Nat → Nat)
    (extraSpace : Nat → Int) (freeSpace : Int) (u : Nat)
    (h : findCoalesceable coalesceDisabled relinkJournal present failed vdis
        isCoal height extraSpace freeSpace = some u)
    (hu : u ∉ relinkJournal) :
    extraSpace u ≤ freeSpace := by
  rw [findCoalesceable] at h
  split at h
  · exact absurd h (by simp)
  · split at h
    · rename_i j hj
      obtain rfl : j = u := by injection h
      exact absurd (List.mem_of_find?_eq_some hj) hu
    · have := List.find?_some h
      simpa using this

/-- Witness for `findCoalesceable_space_law`: VDI 5 selected via the
candidate scan, needing 10 bytes with 20 free. -/
theorem findCoalesceable_space_law_witness :
    findCoalesceable false [] (fun _ => true) [] [5] (fun _ => true)
        (fun _ => 0) (fun _ => (10 : Int)) 20 = some 5 ∧ (10 : Int) ≤ 20 :=
  ⟨rfl, findCoalesceable_space_law false [] (fun _ => true) [] [5]
    (fun _ => true) (fun _ => 0) (fun _ => (10 : Int)) 20 5 rfl (by simp)⟩

lemma exceptMap_ok {e : Except String (List String)} {f : List String → List String}
    {roots : List String} (h : e.map f = .ok roots) :
    ∃ r0, e = .ok r0 ∧ roots = f r0 := by
  cases e with
  | error a => simp [Except.map] at h
  | ok a => exact ⟨a, rfl, by simpa [Except.map] using h.symm⟩

lemma exceptMap_error {e : Except String (List String)} {f : List String → List String}
    {a : String} (h : e = .error a) : e.map f = .error a := by
  subst h; rfl

lemma buildTreeAux_unresolved (present : String → Bool) (force : Bool) :
    ∀ (l : List BVDI) (v : BVDI), v ∈ l → v.parentUuid ≠ "" →
      present v.parentUuid = false →
      ((force = false → strStartsWith v.uuid TMP_RENAME_PREFIX = false →
          ∃ e, buildTreeAux present force l = .error e) ∧
       (∀ roots, buildTreeAux present force l = .ok roots → v.uuid ∈ roots)) := by
  intro l
  induction l with
  | nil => intro v hv; exact absurd hv (List.not_mem_nil v)
  | cons w rest ih =>
      intro v hv hpu hnp
      rcases List.mem_cons.mp hv with rfl | hvr
      · rw [buildTreeAux, if_pos hpu, if_neg (by rw [hnp]; exact Bool.false_ne_true)]
        by_cases hsw : strStartsWith v.uuid TMP_RENAME_PREFIX = true
        · rw [if_pos hsw]
          constructor
          · intro _ hsw'; rw [hsw] at hsw'; exact absurd hsw' (by simp)
          · intro roots h
            obtain ⟨r0, _, rfl⟩ := exceptMap_ok h
            exact List.mem_cons_self _ _
        · rw [if_neg hsw]
          by_cases hf : force = true
          · rw [if_pos hf]
            constructor
            · intro hf'; rw [hf] at hf'; exact absurd hf' (by simp)
            · intro roots h
              obtain ⟨r0, _, rfl⟩ := exceptMap_ok h
              exact List.mem_cons_self _ _
          · rw [if_neg hf]
            constructor
            · intro _ _; exact ⟨v.uuid, rfl⟩
            · intro roots h; exact absurd h (by simp)
      · have IH := ih v hvr hpu hnp
        rw [buildTreeAux]
        by_cases hw : w.parentUuid ≠ ""
        · rw [if_pos hw]
          by_cases hpw : present w.parentUuid = true
          · rw [if_pos hpw]; exact IH
          · rw [if_neg hpw]
            by_cases hsw : strStartsWith w.uuid TMP_RENAME_PREFIX = true
            · rw [if_pos hsw]
              constructor
              · intro hf hsv
                obtain ⟨e, he⟩ := IH.1 hf hsv
                exact ⟨e, exceptMap_error he⟩
              · intro roots h
                obtain ⟨r0, h0, rfl⟩ := exceptMap_ok h
                exact List.mem_cons_of_mem _ (IH.2 r0 h0)
            · rw [if_neg hsw]
              by_cases hf : force = true
              · rw [if_pos hf]
                constructor
                · intro hf'; rw [hf] at hf'; exact absurd hf' (by simp)
                · intro roots h
                  obtain ⟨r0, h0, rfl⟩ := exceptMap_ok h
                  exact List.mem_cons_of_mem _ (IH.2 r0 h0)
              · rw [if_neg hf]
                constructor
                · intro _ _; exact ⟨w.uuid, rfl⟩
                · intro roots h; exact absurd h (by simp)
        · rw [if_neg hw]
          constructor
          · intro hf hsv
            obtain ⟨e, he⟩ := IH.1 hf hsv
            exact ⟨e, exceptMap_error he⟩
          · intro roots h
            obtain ⟨r0, h0, rfl⟩ := exceptMap_ok h
            exact List.mem_cons_of_mem _ (IH.2 r0 h0)

lemma buildTreeAux_force_ok (present : String → Bool) :
    ∀ l : List BVDI, ∃ roots, buildTreeAux present true l = .ok roots := by
  intro l
  induction l with
  | nil => exact ⟨[], rfl⟩
  | cons w rest ih =>
      obtain ⟨roots, hr⟩ := ih
      rw [buildTreeAux]
      by_cases hw : w.parentUuid ≠ ""
      · rw [if_pos hw]
        by_cases hpw : present w.parentUuid = true
        · rw [if_pos hpw]; exact ⟨roots, hr⟩
        · rw [if_neg hpw]
          by_cases hsw : strStartsWith w.uuid TMP_RENAME_PREFIX = true
          · rw [if_pos hsw, hr]; exact ⟨w.uuid :: roots, rfl⟩
          · rw [if_neg hsw, if_pos rfl, hr]; exact ⟨w.uuid :: roots, rfl⟩
      · rw [if_neg hw, hr]; exact ⟨w.uuid :: roots, rfl⟩

/-- C9: during tree rebuild, every node with a non-empty `parentUuid`
that does not resolve to a present node makes the scan raise when `force`
is false and the node's UUID lacks the reserved `OLD_` rename prefix;
with the prefix the node becomes an extra tree root in any successful
rebuild, and with `force` the rebuild always succeeds and the node
becomes an extra tree root. -/
theorem buildTree_unresolvedParent (vdis : List BVDI) (force : Bool) (v : BVDI)
    (hv : v ∈ vdis) (hpu : v.parentUuid ≠ "")
    (hnp : presentIn vdis v.parentUuid = false) :
    (force = false → strStartsWith v.uuid TMP_RENAME_PREFIX = false →
        ∃ e, buildTree vdis force = .error e) ∧
    (∀ roots, buildTree vdis force = .ok roots → v.uuid ∈ roots) ∧
    (force = true → ∃ roots, buildTree vdis force = .ok roots ∧ v.uuid ∈ roots) := by
  have h := buildTreeAux_unresolved (presentIn vdis) force vdis v hv hpu hnp
  refine ⟨h.1, h.2, ?_⟩
  rintro rfl
  obtain ⟨roots, hr⟩ := buildTreeAux_force_ok (presentIn vdis) vdis
  exact ⟨roots, hr, h.2 roots hr⟩

/-- Witness for `buildTree_unresolvedParent`: node `c` with missing
parent `zz` aborts a non-forced scan; `OLD_c` with the same missing
parent becomes a root. -/
theorem buildTree_unresolvedParent_witness :
    (∃ e, buildTree [⟨"a", ""⟩, ⟨"c", "zz"⟩] false = .error e) ∧
    (∃ roots, buildTree [⟨"OLD_c", "zz"⟩] false = .ok roots ∧ "OLD_c" ∈ roots) := by
  constructor
  · exact (buildTree_unresolvedParent [⟨"a", ""⟩, ⟨"c", "zz"⟩] false ⟨"c", "zz"⟩
      (by simp) (by decide) (by decide)).1 rfl (by decide)
  · have h2 := (buildTree_unresolvedParent [⟨"OLD_c", "zz"⟩] false ⟨"OLD_c", "zz"⟩
      (by simp) (by decide) (by decide)).2.1 ["OLD_c"] rfl
    exact ⟨["OLD_c"], rfl, h2⟩

lemma range_map_getD_sum (f : Nat → Nat) :
    ∀ L : List Nat,
      ((List.range L.length).map (fun i => f (L.getD i 0))).sum = (L.map f).sum := by
  intro L
  induction L with
  | nil => simp
  | cons a as ih =>
      rw [List.length_cons, List.range_succ_eq_map, List.map_cons, List.sum_cons,
        List.map_map]
      have he : ((fun i => f ((a :: as).getD i 0)) ∘ Nat.succ) =
          fun i => f (as.getD i 0) := rfl
      rw [he, ih, List.getD_cons_zero, List.map_cons, List.sum_cons]

lemma range_map_getD_drop_sum (f : Nat → Nat) :
    ∀ (L : List Nat) (s : Nat),
      ((List.range (L.length - s)).map (fun i => f (L.getD (s + i) 0))).sum =
        ((L.drop s).map f).sum := by
  intro L
  induction L with
  | nil => intro s; simp
  | cons a as ih =>
      intro s
      cases s with
      | zero =>
          simpa using range_map_getD_sum f (a :: as)
      | succ s' =>
          rw [List.length_cons, Nat.succ_sub_succ, List.drop_succ_cons]
          have he : (fun i => f ((a :: as).getD (s' + 1 + i) 0)) =
              fun i => f (as.getD (s' + i) 0) := by
            funext i
            rw [show s' + 1 + i = (s' + i) + 1 by omega, List.getD_cons_succ]
          rw [he, ih s']

lemma range_map_or_prefix_sum :
    ∀ (b1 b2 : List Nat),
      ((List.range (min b1.length b2.length)).map
        (fun i => numBits ((b1.getD i 0) ||| (b2.getD i 0)))).sum =
      (List.zipWith (fun x y => numBits (x ||| y)) b1 b2).sum := by
  intro b1
  induction b1 with
  | nil => intro b2; simp
  | cons a as ih =>
      intro b2
      cases b2 with
      | nil => simp
      | cons b bs =>
          have hm : min (a :: as).length (b :: bs).length =
              min as.length bs.length + 1 := by
            simp only [List.length_cons]; omega
          rw [hm, List.range_succ_eq_map, List.map_cons, List.sum_cons,
            List.map_map]
          have he : ((fun i => numBits (((a :: as).getD i 0) |||
              ((b :: bs).getD i 0))) ∘ Nat.succ) =
              fun i => numBits ((as.getD i 0) ||| (bs.getD i 0)) := rfl
          rw [he, ih bs, List.getD_cons_zero, List.getD_cons_zero,
            List.zipWith_cons_cons, List.sum_cons]

lemma popcount_orZipExt_split :
    ∀ (b1 b2 : List Nat),
      popcountList (orZipExt b1 b2) =
        (List.zipWith (fun x y => numBits (x ||| y)) b1 b2).sum +
        (((if b2.length > b1.length then b2 else b1).drop
            (min b1.length b2.length)).map numBits).sum := by
  intro b1
  induction b1 with
  | nil =>
      intro b2
      cases b2 with
      | nil => simp [popcountList, orZipExt]
      | cons b bs => simp [popcountList, orZipExt]
  | cons a as ih =>
      intro b2
      cases b2 with
      | nil => simp [popcountList, orZipExt]
      | cons b bs =>
          have ih' := ih bs
          simp only [popcountList] at ih' ⊢
          have ho : orZipExt (a :: as) (b :: bs) = (a ||| b) :: orZipExt as bs := rfl
          rw [ho, List.map_cons, List.sum_cons, ih', List.zipWith_cons_cons,
            List.sum_cons]
          have hm : min (a :: as).length (b :: bs).length =
              min as.length bs.length + 1 := by
            simp only [List.length_cons]; omega
          have hdrop : ((if (b :: bs).length > (a :: as).length then b :: bs
              else a :: as).drop (min as.length bs.length + 1)) =
              (if bs.length > as.length then bs else as).drop
                (min as.length bs.length) := by
            by_cases hc : bs.length > as.length
            · rw [if_pos (by simp only [List.length_cons]; omega), if_pos hc,
                List.drop_succ_cons]
            · rw [if_neg (by simp only [List.length_cons]; omega), if_neg hc,
                List.drop_succ_cons]
          rw [hm, hdrop]
          omega

/-- C7 (amended): for every pair of byte bitmaps in which the shorter
bitmap is non-empty, `Util.countBits(b1, b2)` returns the number of set
bits in the byte-wise OR of the two bitmaps with the shorter one
zero-extended, and `VDI._getCoalescedSizeData` is that count times
`VHD_BLOCK_SIZE`.  (With an empty bitmap the leaked-loop-variable trick
`range(i + 1, lenLong)` raises `NameError` instead.) -/
theorem countBits_popcount (b1 b2 : List Nat) (h1 : b1 ≠ []) (h2 : b2 ≠ []) :
    countBits b1 b2 = some (popcountList (orZipExt b1 b2)) ∧
    ∀ vhdBlockSize, getCoalescedSizeData vhdBlockSize b1 b2 =
      some (popcountList (orZipExt b1 b2) * vhdBlockSize) := by
  have hl1 : b1.length ≠ 0 := by
    simpa using h1
  have hl2 : b2.length ≠ 0 := by
    simpa using h2
  have hmain : countBits b1 b2 = some (popcountList (orZipExt b1 b2)) := by
    by_cases hgt : b2.length > b1.length
    · have hmin : min b1.length b2.length = b1.length := min_eq_left (le_of_lt hgt)
      simp only [countBits, hgt, if_true, hl1, if_false]
      rw [popcount_orZipExt_split b1 b2, if_pos hgt, hmin,
        ← range_map_getD_drop_sum numBits b2 b1.length,
        ← range_map_or_prefix_sum b1 b2, hmin]
    · have hmin : min b1.length b2.length = b2.length := min_eq_right (by omega)
      simp only [countBits, hgt, if_false, hl2, if_true]
      rw [popcount_orZipExt_split b1 b2, if_neg hgt, hmin,
        ← range_map_getD_drop_sum numBits b1 b2.length,
        ← range_map_or_prefix_sum b1 b2, hmin]
  refine ⟨hmain, fun vhdBlockSize => ?_⟩
  rw [getCoalescedSizeData, hmain, Option.map_some']

/-- C7 counterexample: on the pair `([], [1])` the claim demands the OR
bit count 1, but `countBits` raises `NameError` (modelled `none`): the
first loop never runs, so `i` is unbound in `range(i + 1, lenLong)`. -/
theorem countBits_counterexample :
    countBits [] [1] = none ∧ popcountList (orZipExt [] [1]) = 1 := by
  refine ⟨rfl, ?_⟩
  norm_num [popcountList, orZipExt, numBits]

/-- Witness for `countBits_popcount`: bitmaps `[1, 2]` and `[3]` have
OR `[3, 2]` with 3 set bits. -/
theorem countBits_popcount_witness :
    countBits [1, 2] [3] = some (popcountList (orZipExt [1, 2] [3])) :=
  (countBits_popcount [1, 2] [3] (by simp) (by simp)).1

lemma mem_getAllPrunable (jrn : Nat → Bool) :
    ∀ (t x : VTree), x ∈ getAllPrunable jrn t →
      x.nd.hidden = true ∨ x.children ≠ [] := by
  have H : ∀ (n : Nat) (t : VTree), sizeOf t < n → ∀ x ∈ getAllPrunable jrn t,
      x.nd.hidden = true ∨ x.children ≠ [] := by
    intro n
    induction n with
    | zero => intro t ht; omega
    | succ n ih =>
        intro t ht x hx
        obtain ⟨nd, children⟩ := t
        have hflat : ∀ x, x ∈ ((children.attach.map
            (fun c => (c.1, getAllPrunable jrn c.1))).map
              (fun r => r.2)).flatten →
            x.nd.hidden = true ∨ x.children ≠ [] := by
          intro x hf
          rw [List.mem_flatten] at hf
          obtain ⟨l, hl, hxl⟩ := hf
          rw [List.map_map, List.mem_map] at hl
          obtain ⟨⟨c, hc⟩, _, hceq⟩ := hl
          simp only [Function.comp] at hceq
          rw [← hceq] at hxl
          have hsz : sizeOf c < n := by
            have h1 := List.sizeOf_lt_of_mem hc
            have h2 : sizeOf (VTree.mk nd children) ≤ n := by omega
            simp only [VTree.mk.sizeOf_spec] at h2
            omega
          exact ih c hsz x hxl
        rw [getAllPrunable] at hx
        by_cases hemp : children.isEmpty
        · rw [if_pos hemp] at hx
          split at hx
          · exact absurd hx (List.not_mem_nil x)
          · split at hx
            · rename_i hcond
              rcases List.mem_singleton.mp hx with rfl
              simp only [Bool.and_eq_true, Bool.not_eq_true'] at hcond
              exact Or.inl hcond.2
            · exact absurd hx (List.not_mem_nil x)
        · rw [if_neg hemp] at hx
          simp only at hx
          split at hx
          · rcases List.mem_append.mp hx with hm' | hm'
            · exact hflat x hm'
            · rcases List.mem_singleton.mp hm' with rfl
              refine Or.inr ?_
              intro hcl
              rw [show (VTree.mk nd children).children = children from rfl] at hcl
              rw [hcl] at hemp
              exact hemp (by simp)
          · exact hflat x hx
  intro t x hx
  exact H (sizeOf t + 1) t (by omega) x hx

/-- C6 (amended): the garbage set is disjoint from the leaf-coalesceable
set, and the coalesceable set is disjoint from the leaf-coalesceable set;
the garbage and coalesceable sets themselves are NOT disjoint (see the
counterexample): a hidden interior node whose whole subtree is garbage is
returned by `findGarbage` and also satisfies `isCoalesceable`. -/
theorem findGarbage_disjoint (jrn : Nat → Bool) (vdiTrees : List VTree) :
    (∀ x ∈ findGarbage jrn vdiTrees, ∀ parent,
        isLeafCoalesceableP parent x = false) ∧
    (∀ (parent : Option VTree) (t : VTree), isCoalesceableP parent t = true →
        isLeafCoalesceableP parent t = false) := by
  constructor
  · intro x hx parent
    rw [findGarbage, List.mem_flatten] at hx
    obtain ⟨l, hl, hxl⟩ := hx
    rw [List.mem_map] at hl
    obtain ⟨t, _, rfl⟩ := hl
    rcases mem_getAllPrunable jrn t x hxl with hh | hc
    · simp [isLeafCoalesceableP, hh]
    · have : x.children.length ≠ 0 := by
        intro h0
        exact hc (List.length_eq_zero.mp h0)
      simp [isLeafCoalesceableP, this]
  · intro parent t hco
    simp only [isCoalesceableP, Bool.and_eq_true, Bool.not_eq_true',
      decide_eq_true_eq] at hco
    simp [isLeafCoalesceableP, hco.1.2]

def exLeaf : VTree := .mk ⟨3, true, false⟩ []
def exMid : VTree := .mk ⟨2, true, false⟩ [exLeaf]
def exRoot : VTree := .mk ⟨1, true, false⟩ [exMid]

/-- C6 counterexample: the chain root 1 → node 2 → leaf 3, all hidden,
no journal entries.  `findGarbage` returns all three nodes, and node 2
(whose parent, the root, has exactly one child) satisfies
`isCoalesceable`: the garbage and coalesceable sets overlap. -/
theorem findGarbage_coalesceable_counterexample :
    exMid ∈ findGarbage (fun _ => false) [exRoot] ∧
    exMid ∈ exRoot.children ∧ exRoot.children.length = 1 ∧
    isCoalesceableP (some exRoot) exMid = true := by
  have h : findGarbage (fun _ => false) [exRoot] = [exLeaf, exMid, exRoot] := by
    simp [findGarbage, getAllPrunable, exRoot, exMid, exLeaf, List.contains,
      vtreeBEq, VTree.beq]
  refine ⟨by rw [h]; simp, by simp [exRoot, VTree.children],
    by simp [exRoot, VTree.children], by
    simp [isCoalesceableP, exRoot, exMid, exLeaf, VTree.nd, VTree.children]⟩

/-- Witness for `findGarbage_disjoint`: node 2 of the example chain is
garbage, hence not leaf-coalesceable. -/
theorem findGarbage_disjoint_witness :
    isLeafCoalesceableP (some exRoot) exMid = false :=
  (findGarbage_disjoint (fun _ => false) [exRoot]).1 exMid
    (by
      have h : findGarbage (fun _ => false) [exRoot] = [exLeaf, exMid, exRoot] := by
        simp [findGarbage, getAllPrunable, exRoot, exMid, exLeaf, List.contains,
          vtreeBEq, VTree.beq]
      rw [h]; simp)
    (some exRoot)

/-! Frame lemmas. -/

@[simp] lemma updVDI_journal (s : SRState) (u : Nat) (f : VDIRec → VDIRec) :
    (updVDI s u f).journal = s.journal := rfl

@[simp] lemma updVDI_files (s : SRState) (u : Nat) (f : VDIRec → VDIRec) :
    (updVDI s u f).files = s.files := rfl

@[simp] lemma updVDI_vdiTrees (s : SRState) (u : Nat) (f : VDIRec → VDIRec) :
    (updVDI s u f).vdiTrees = s.vdiTrees := rfl

@[simp] lemma journalCreate_vdis (s : SRState) (k : JKind) (u : Nat) :
    (journalCreate s k u).vdis = s.vdis := rfl

@[simp] lemma journalRemove_vdis (s : SRState) (k : JKind) (u : Nat) :
    (journalRemove s k u).vdis = s.vdis := rfl

@[simp] lemma journalCreate_files (s : SRState) (k : JKind) (u : Nat) :
    (journalCreate s k u).files = s.files := rfl

@[simp] lemma journalRemove_files (s : SRState) (k : JKind) (u : Nat) :
    (journalRemove s k u).files = s.files := rfl

@[simp] lemma getVDI_journalCreate (s : SRState) (k : JKind) (u w : Nat) :
    getVDI (journalCreate s k u) w = getVDI s w := rfl

@[simp] lemma getVDI_journalRemove (s : SRState) (k : JKind) (u w : Nat) :
    getVDI (journalRemove s k u) w = getVDI s w := rfl

/-! `find?` over updated and filtered record lists. -/

lemma find?_map_upd_self (l : List VDIRec) (u : Nat) (f : VDIRec → VDIRec)
    (hf : ∀ r, (f r).uuid = r.uuid) :
    (l.map (fun r => if r.uuid == u then f r else r)).find? (fun r => r.uuid == u) =
      (l.find? (fun r => r.uuid == u)).map f := by
  induction l with
  | nil => simp
  | cons a as ih =>
      by_cases ha : a.uuid = u
      · rw [List.map_cons, if_pos (by simpa using ha)]
        rw [List.find?_cons_of_pos (p := fun (r : VDIRec) => r.uuid == u) _ (by simp [hf a, ha]),
          List.find?_cons_of_pos (p := fun (r : VDIRec) => r.uuid == u) _ (by simpa using ha)]
        simp
      · rw [List.map_cons, if_neg (by simpa using ha)]
        rw [List.find?_cons_of_neg (p := fun (r : VDIRec) => r.uuid == u) _ (by simp [hf a, ha]),
          List.find?_cons_of_neg (p := fun (r : VDIRec) => r.uuid == u) _ (by simpa using ha)]
        exact ih

lemma find?_map_upd_other (l : List VDIRec) (u w : Nat) (f : VDIRec → VDIRec)
    (hf : ∀ r, (f r).uuid = r.uuid) (hw : w ≠ u) :
    (l.map (fun r => if r.uuid == u then f r else r)).find? (fun r => r.uuid == w) =
      l.find? (fun r => r.uuid == w) := by
  induction l with
  | nil => simp
  | cons a as ih =>
      by_cases ha : a.uuid = u
      · rw [List.map_cons, if_pos (by simpa using ha)]
        have h1 : ((fun r => r.uuid == w) (f a)) ≠ true := by
          simp [hf a, ha]
          omega
        have h2 : ((fun r => r.uuid == w) a) ≠ true := by
          simp [ha]
          omega
        rw [List.find?_cons_of_neg (p := fun (r : VDIRec) => r.uuid == w) _ h1, List.find?_cons_of_neg (p := fun (r : VDIRec) => r.uuid == w) _ h2]
        exact ih
      · rw [List.map_cons, if_neg (by simpa using ha)]
        by_cases haw : a.uuid = w
        · rw [List.find?_cons_of_pos (p := fun (r : VDIRec) => r.uuid == w) _ (by simpa using haw),
            List.find?_cons_of_pos (p := fun (r : VDIRec) => r.uuid == w) _ (by simpa using haw)]
        · rw [List.find?_cons_of_neg (p := fun (r : VDIRec) => r.uuid == w) _ (by simpa using haw),
            List.find?_cons_of_neg (p := fun (r : VDIRec) => r.uuid == w) _ (by simpa using haw)]
          exact ih

lemma getVDI_updVDI_self (s : SRState) (u : Nat) (f : VDIRec → VDIRec)
    (hf : ∀ r, (f r).uuid = r.uuid) :
    getVDI (updVDI s u f) u = (getVDI s u).map f :=
  find?_map_upd_self s.vdis u f hf

lemma getVDI_updVDI_other (s : SRState) (u w : Nat) (f : VDIRec → VDIRec)
    (hf : ∀ r, (f r).uuid = r.uuid) (hw : w ≠ u) :
    getVDI (updVDI s u f) w = getVDI s w :=
  find?_map_upd_other s.vdis u w f hf hw

lemma find?_filter_ne (l : List VDIRec) (u w : Nat) (hw : w ≠ u) :
    (l.filter (fun r => r.uuid ≠ u)).find? (fun r => r.uuid == w) =
      l.find? (fun r => r.uuid == w) := by
  induction l with
  | nil => simp
  | cons a as ih =>
      by_cases ha : a.uuid = u
      · rw [List.filter_cons_of_neg (by simpa using ha),
          List.find?_cons_of_neg (p := fun (r : VDIRec) => r.uuid == w) _ (by simp [ha]; omega)]
        exact ih
      · rw [List.filter_cons_of_pos (by simpa using ha)]
        by_cases haw : a.uuid = w
        · rw [List.find?_cons_of_pos (p := fun (r : VDIRec) => r.uuid == w) _ (by simpa using haw),
            List.find?_cons_of_pos (p := fun (r : VDIRec) => r.uuid == w) _ (by simpa using haw)]
        · rw [List.find?_cons_of_neg (p := fun (r : VDIRec) => r.uuid == w) _ (by simpa using haw),
            List.find?_cons_of_neg (p := fun (r : VDIRec) => r.uuid == w) _ (by simpa using haw)]
          exact ih

lemma find?_filter_self (l : List VDIRec) (u : Nat) :
    (l.filter (fun r => r.uuid ≠ u)).find? (fun r => r.uuid == u) = none := by
  rw [List.find?_eq_none]
  intro r hr
  have := List.of_mem_filter hr
  simp at this ⊢
  omega

@[simp] lemma setParentTo_journal (s : SRState) (c p : Nat) :
    (setParentTo s c p).journal = s.journal := rfl

@[simp] lemma setParentTo_files (s : SRState) (c p : Nat) :
    (setParentTo s c p).files = s.files := rfl

lemma getVDI_setParentTo_other (s : SRState) (c p w : Nat)
    (hwc : w ≠ c) (hwp : w ≠ p) :
    getVDI (setParentTo s c p) w = getVDI s w := by
  have h1 := getVDI_updVDI_other
    (updVDI s c (fun r => { r with parentOnDisk := some p, parent := some p })) p w
    (fun r => { r with children := r.children ++ [c] }) (fun r => rfl) hwp
  have h2 := getVDI_updVDI_other s c w
    (fun r => { r with parentOnDisk := some p, parent := some p }) (fun r => rfl) hwc
  dsimp only [setParentTo]
  rw [h1, h2]

lemma getVDI_setParentTo_parent (s : SRState) (c p : Nat) (hcp : c ≠ p) :
    getVDI (setParentTo s c p) p =
      (getVDI s p).map (fun r => { r with children := r.children ++ [c] }) := by
  have h1 := getVDI_updVDI_self
    (updVDI s c (fun r => { r with parentOnDisk := some p, parent := some p })) p
    (fun r => { r with children := r.children ++ [c] }) (fun r => rfl)
  have h2 := getVDI_updVDI_other s c p
    (fun r => { r with parentOnDisk := some p, parent := some p }) (fun r => rfl)
    (fun h => hcp h.symm)
  dsimp only [setParentTo]
  rw [h1, h2]

lemma getVDI_setParentTo_child (s : SRState) (c p : Nat) (hcp : c ≠ p) :
    getVDI (setParentTo s c p) c =
      (getVDI s c).map
        (fun r => { r with parentOnDisk := some p, parent := some p }) := by
  have h1 := getVDI_updVDI_other
    (updVDI s c (fun r => { r with parentOnDisk := some p, parent := some p })) p c
    (fun r => { r with children := r.children ++ [c] }) (fun r => rfl) hcp
  have h2 := getVDI_updVDI_self s c
    (fun r => { r with parentOnDisk := some p, parent := some p }) (fun r => rfl)
  dsimp only [setParentTo]
  rw [h1, h2]

lemma foldl_setParentTo_other (p w : Nat) :
    ∀ (cs : List Nat) (s : SRState), w ∉ cs → w ≠ p →
      getVDI (cs.foldl (fun acc c => setParentTo acc c p) s) w = getVDI s w := by
  intro cs
  induction cs with
  | nil => intro s _ _; rfl
  | cons c cs ih =>
      intro s hw hwp
      rw [List.foldl_cons, ih _ (fun h => hw (List.mem_cons_of_mem _ h)) hwp,
        getVDI_setParentTo_other _ _ _ _ (fun h => hw (by rw [h]; exact List.mem_cons_self c cs)) hwp]

lemma foldl_setParentTo_parent (p : Nat) :
    ∀ (cs : List Nat) (s : SRState), p ∉ cs →
      getVDI (cs.foldl (fun acc c => setParentTo acc c p) s) p =
        (getVDI s p).map (fun r => { r with children := r.children ++ cs }) := by
  intro cs
  induction cs with
  | nil =>
      intro s _
      rw [List.foldl_nil]
      cases h : getVDI s p <;> simp
  | cons c cs ih =>
      intro s hp
      have hpc : c ≠ p := fun h => hp (by rw [← h]; exact List.mem_cons_self c cs)
      rw [List.foldl_cons, ih _ (fun h => hp (List.mem_cons_of_mem _ h)),
        getVDI_setParentTo_parent _ _ _ hpc, Option.map_map]
      cases h : getVDI s p <;> simp

lemma foldl_setParentTo_mem (p : Nat) :
    ∀ (cs : List Nat) (s : SRState) (c : Nat), c ∈ cs → c ≠ p →
      getVDI (cs.foldl (fun acc c => setParentTo acc c p) s) c =
        (getVDI s c).map
          (fun r => { r with parentOnDisk := some p, parent := some p }) := by
  intro cs
  induction cs with
  | nil => intro s c hc; exact absurd hc (List.not_mem_nil c)
  | cons a as ih =>
      intro s c hc hcp
      by_cases hmem : c ∈ as
      · rw [List.foldl_cons, ih _ c hmem hcp]
        by_cases hca : c = a
        · subst hca
          rw [getVDI_setParentTo_child _ _ _ hcp, Option.map_map]
          cases h : getVDI s c <;> simp
        · rw [getVDI_setParentTo_other _ _ _ _ hca hcp]
      · have hca : c = a := by
          rcases List.mem_cons.mp hc with h | h
          · exact h
          · exact absurd h hmem
        subst hca
        rw [List.foldl_cons, foldl_setParentTo_other p c as _ hmem hcp,
          getVDI_setParentTo_child _ _ _ hcp]

lemma foldl_setParentTo_journal (p : Nat) :
    ∀ (cs : List Nat) (s : SRState),
      (cs.foldl (fun acc c => setParentTo acc c p) s).journal = s.journal := by
  intro cs
  induction cs with
  | nil => intro s; rfl
  | cons c cs ih => intro s; rw [List.foldl_cons, ih, setParentTo_journal]

lemma foldl_setParentTo_files (p : Nat) :
    ∀ (cs : List Nat) (s : SRState),
      (cs.foldl (fun acc c => setParentTo acc c p) s).files = s.files := by
  intro cs
  induction cs with
  | nil => intro s; rfl
  | cons c cs ih => intro s; rw [List.foldl_cons, ih, setParentTo_files]

/-! Journal store facts. -/

lemma journalHas_congr (s1 s2 : SRState) (h : s1.journal = s2.journal)
    (k : JKind) (u : Nat) : journalHas s1 k u = journalHas s2 k u := by
  simp [journalHas, h]

lemma journalHas_remove_self (s : SRState) (k : JKind) (u : Nat) :
    journalHas (journalRemove s k u) k u = false := by
  simp only [journalHas, journalRemove]
  rw [List.any_eq_false]
  intro e he
  have := (List.mem_filter.mp he).2
  simpa using this

lemma journalHas_remove_other (s : SRState) (k : JKind) (u : Nat)
    (k' : JKind) (u' : Nat) (h : (k', u') ≠ (k, u)) :
    journalHas (journalRemove s k u) k' u' = journalHas s k' u' := by
  simp only [journalHas, journalRemove]
  rcases hh : s.journal.any (fun e => e == (k', u')) with _ | _
  · rw [List.any_eq_false] at hh ⊢
    intro e he
    exact hh e (List.mem_filter.mp he).1
  · rw [List.any_eq_true] at hh ⊢
    obtain ⟨e, he, hpe⟩ := hh
    refine ⟨e, List.mem_filter.mpr ⟨he, ?_⟩, hpe⟩
    have : e = (k', u') := by simpa using hpe
    simp [this, h]

lemma journalHas_create_other (s : SRState) (k : JKind) (u : Nat)
    (k' : JKind) (u' : Nat) (h : (k, u) ≠ (k', u')) :
    journalHas (journalCreate s k u) k' u' = journalHas s k' u' := by
  simp [journalHas, journalCreate, List.any_append, h]

/-! `doCoalesce`, `relinkSkip`, `deleteVDI` characterizations. -/

lemma doCoalesce_eq (s : SRState) (u p : Nat) (v : VDIRec)
    (hv : getVDI s u = some v) :
    doCoalesce s u p = updVDI s p (fun r =>
      if r.sizeVirt ≥ v.sizeVirt then r else { r with sizeVirt := v.sizeVirt }) := by
  simp only [doCoalesce, hv]

lemma relinkSkip_eq (s : SRState) (u p : Nat) (v : VDIRec)
    (hv : getVDI s u = some v) :
    relinkSkip s u p =
      updVDI (v.children.foldl (fun acc c => setParentTo acc c p) s) u
        (fun r => { r with children := [] }) := by
  simp only [relinkSkip, hv]

lemma getVDI_updVDI_none (s : SRState) (q w : Nat) (f : VDIRec → VDIRec)
    (hf : ∀ r, (f r).uuid = r.uuid) (h : getVDI s w = none) :
    getVDI (updVDI s q f) w = none := by
  by_cases hwq : w = q
  · subst hwq
    rw [getVDI_updVDI_self s w f hf, h]
    rfl
  · rw [getVDI_updVDI_other s q w f hf hwq, h]

lemma getVDI_deleteVDI_self (s : SRState) (u : Nat) (w : VDIRec)
    (hv : getVDI s u = some w) :
    getVDI (deleteVDI s u) u = none := by
  simp only [deleteVDI, hv]
  cases hwp : w.parent with
  | none =>
      exact find?_filter_self s.vdis u
  | some q =>
      show getVDI (updVDI { s with vdis := s.vdis.filter (fun r => r.uuid ≠ u) } q
        (fun r => { r with children := r.children.erase u })) u = none
      exact getVDI_updVDI_none _ q u _ (fun r => rfl) (find?_filter_self s.vdis u)

lemma getVDI_deleteVDI_parent (s : SRState) (u : Nat) (w : VDIRec) (p : Nat)
    (hv : getVDI s u = some w) (hwp : w.parent = some p) (hpu : p ≠ u) :
    getVDI (deleteVDI s u) p =
      (getVDI s p).map (fun r => { r with children := r.children.erase u }) := by
  simp only [deleteVDI, hv, hwp]
  show getVDI (updVDI { s with vdis := s.vdis.filter (fun r => r.uuid ≠ u) } p
    (fun r => { r with children := r.children.erase u })) p = _
  rw [getVDI_updVDI_self _ p (fun r => { r with children := r.children.erase u })
    (fun r => rfl)]
  congr 1
  exact find?_filter_ne s.vdis u p hpu

lemma getVDI_deleteVDI_other (s : SRState) (u : Nat) (w : VDIRec) (p c : Nat)
    (hv : getVDI s u = some w) (hwp : w.parent = some p)
    (hcu : c ≠ u) (hcp : c ≠ p) :
    getVDI (deleteVDI s u) c = getVDI s c := by
  simp only [deleteVDI, hv, hwp]
  show getVDI (updVDI { s with vdis := s.vdis.filter (fun r => r.uuid ≠ u) } p
    (fun r => { r with children := r.children.erase u })) c = _
  rw [getVDI_updVDI_other _ p c (fun r => { r with children := r.children.erase u })
    (fun r => rfl) hcp]
  exact find?_filter_ne s.vdis u c hcu

lemma deleteVDI_journal (s : SRState) (u : Nat) :
    (deleteVDI s u).journal = s.journal := by
  simp only [deleteVDI]
  split
  · rfl
  · split <;> rfl

lemma deleteVDI_files (s : SRState) (u : Nat) (w : VDIRec)
    (hv : getVDI s u = some w) :
    (deleteVDI s u).files = s.files.erase u := by
  simp only [deleteVDI, hv]
  cases w.parent <;> rfl

/-- Common tail of `SR._coalesce` (relink + journal clear + delete),
starting from the state `s1` reached after the data-copy phase. -/
lemma srCoalesce_post_aux (s1 : SRState) (u p : Nat) (v pr1 : VDIRec)
    (hv1 : getVDI s1 u = some v)
    (hp : v.parent = some p)
    (hpr1 : getVDI s1 p = some pr1)
    (hup : u ≠ p)
    (hpc : pr1.children = [u])
    (hcsu : u ∉ v.children)
    (hcsp : p ∉ v.children)
    (hco : journalHas s1 JKind.coalesce u = false) :
    getVDI (deleteVDI (journalRemove (relinkSkip s1 u p) .relink u) u) u = none ∧
    getVDI (deleteVDI (journalRemove (relinkSkip s1 u p) .relink u) u) p =
      some { pr1 with children := v.children } ∧
    (∀ c ∈ v.children,
      getVDI (deleteVDI (journalRemove (relinkSkip s1 u p) .relink u) u) c =
        (getVDI s1 c).map
          (fun r => { r with parentOnDisk := some p, parent := some p })) ∧
    journalHas (deleteVDI (journalRemove (relinkSkip s1 u p) .relink u) u)
      .coalesce u = false ∧
    journalHas (deleteVDI (journalRemove (relinkSkip s1 u p) .relink u) u)
      .relink u = false ∧
    (deleteVDI (journalRemove (relinkSkip s1 u p) .relink u) u).files =
      s1.files.erase u := by
  have hpu : p ≠ u := fun h => hup h.symm
  have hrel := relinkSkip_eq s1 u p v hv1
  have hB1 : getVDI (relinkSkip s1 u p) u =
      some { v with children := ([] : List Nat) } := by
    rw [hrel, getVDI_updVDI_self _ u (fun r => { r with children := [] })
      (fun r => rfl), foldl_setParentTo_other p u v.children s1 hcsu hup, hv1]
    rfl
  have hB2 : getVDI (relinkSkip s1 u p) p =
      some { pr1 with children := pr1.children ++ v.children } := by
    rw [hrel, getVDI_updVDI_other _ u p (fun r => { r with children := [] })
      (fun r => rfl) hpu, foldl_setParentTo_parent p v.children s1 hcsp, hpr1]
    rfl
  have hB3 : ∀ c ∈ v.children, getVDI (relinkSkip s1 u p) c =
      (getVDI s1 c).map
        (fun r => { r with parentOnDisk := some p, parent := some p }) := by
    intro c hc
    have hcu : c ≠ u := fun h => hcsu (h ▸ hc)
    have hcp : c ≠ p := fun h => hcsp (h ▸ hc)
    rw [hrel, getVDI_updVDI_other _ u c (fun r => { r with children := [] })
      (fun r => rfl) hcu, foldl_setParentTo_mem p v.children s1 c hc hcp]
  have hB4 : (relinkSkip s1 u p).journal = s1.journal := by
    rw [hrel, updVDI_journal, foldl_setParentTo_journal]
  have hB5 : (relinkSkip s1 u p).files = s1.files := by
    rw [hrel, updVDI_files, foldl_setParentTo_files]
  -- the state after removing the relink journal entry
  have hC1 : getVDI (journalRemove (relinkSkip s1 u p) .relink u) u =
      some { v with children := ([] : List Nat) } := hB1
  have hv2p : ({ v with children := ([] : List Nat) } : VDIRec).parent = some p := hp
  refine ⟨?_, ?_, ?_, ?_, ?_, ?_⟩
  · exact getVDI_deleteVDI_self _ u _ hC1
  · rw [getVDI_deleteVDI_parent _ u _ p hC1 hv2p hpu, getVDI_journalRemove,
      hB2, Option.map_some']
    rw [show ({ pr1 with children := pr1.children ++ v.children } : VDIRec) =
      { pr1 with children := u :: v.children } by rw [hpc, List.singleton_append]]
    rw [show ({ pr1 with children := u :: v.children } : VDIRec).children.erase u =
      v.children by exact List.erase_cons_head u v.children]
  · intro c hc
    have hcu : c ≠ u := fun h => hcsu (h ▸ hc)
    have hcp : c ≠ p := fun h => hcsp (h ▸ hc)
    rw [getVDI_deleteVDI_other _ u _ p c hC1 hv2p hcu hcp, getVDI_journalRemove]
    exact hB3 c hc
  · rw [journalHas_congr _ (journalRemove (relinkSkip s1 u p) .relink u)
      (deleteVDI_journal _ u) .coalesce u,
      journalHas_remove_other _ .relink u .coalesce u (by simp)]
    rw [journalHas_congr _ s1 hB4 .coalesce u]
    exact hco
  · rw [journalHas_congr _ (journalRemove (relinkSkip s1 u p) .relink u)
      (deleteVDI_journal _ u) .relink u]
    exact journalHas_remove_self _ .relink u
  · rw [deleteVDI_files _ u _ hC1, journalRemove_files, hB5]

lemma grow_uuid (x : Int) (r : VDIRec) :
    (if r.sizeVirt ≥ x then r else { r with sizeVirt := x }).uuid = r.uuid := by
  by_cases h : r.sizeVirt ≥ x
  · rw [if_pos h]
  · rw [if_neg h]

lemma grow_children (pr : VDIRec) (x : Int) :
    (if pr.sizeVirt ≥ x then pr else { pr with sizeVirt := x }).children =
      pr.children := by
  split <;> rfl

lemma grow_sizeVirt (pr : VDIRec) (x : Int) :
    (if pr.sizeVirt ≥ x then pr else { pr with sizeVirt := x }).sizeVirt ≥ x := by
  split
  · assumption
  · exact le_refl x

lemma doCoalesce_files (s : SRState) (u p : Nat) :
    (doCoalesce s u p).files = s.files := by
  simp only [doCoalesce]
  split <;> rfl

lemma not_mem_erase_of_count_le_one (l : List Nat) (u : Nat)
    (h : l.count u ≤ 1) : u ∉ l.erase u := by
  intro hmem
  have h1 : (l.erase u).count u = l.count u - 1 := List.count_erase_self u l
  have h2 : 0 < (l.erase u).count u := List.count_pos_iff.mpr hmem
  omega

/-- C1: for every coalesceable VDI `u` (resolved record `v`, hidden,
non-leaf, the single child of its parent `p`) in a well-formed quiescent
SR state — `u` is not its own child, `p` is not among `u`'s children,
every child of `u` has a record, the backing file of `u` appears once,
and if a `relink` journal entry is pending (crash recovery) the previous
run already removed the `coalesce` entry and grew the parent — after
`SR._coalesce(u)` completes: `u` is gone from `sr.vdis`, its backing
file is deleted, `u` is no longer among `p.children`, every former child
of `u` has in-memory parent reference and on-disk parent pointer `p`,
`p.sizeVirt` is at least the old `v.sizeVirt`, and no `coalesce` or
`relink` journal entry for `u` remains. -/
theorem srCoalesce_correct (s : SRState) (u p : Nat) (v pr : VDIRec)
    (hv : getVDI s u = some v)
    (hpv : v.parent = some p)
    (hpr : getVDI s p = some pr)
    (hup : u ≠ p)
    (hhid : v.hidden = true)
    (hnl : v.children ≠ [])
    (hpc : pr.children = [u])
    (hcsu : u ∉ v.children)
    (hcsp : p ∉ v.children)
    (hex : ∀ c ∈ v.children, (getVDI s c).isSome)
    (hfiles : s.files.count u ≤ 1)
    (hrec : journalHas s .relink u = true →
      journalHas s .coalesce u = false ∧ pr.sizeVirt ≥ v.sizeVirt) :
    getVDI (srCoalesce s u) u = none ∧
    u ∉ (srCoalesce s u).files ∧
    (∃ pr', getVDI (srCoalesce s u) p = some pr' ∧ u ∉ pr'.children ∧
      pr'.sizeVirt ≥ v.sizeVirt) ∧
    (∀ c ∈ v.children, ∃ cr', getVDI (srCoalesce s u) c = some cr' ∧
      cr'.parent = some p ∧ cr'.parentOnDisk = some p) ∧
    journalHas (srCoalesce s u) .coalesce u = false ∧
    journalHas (srCoalesce s u) .relink u = false := by
  by_cases hJ : journalHas s .relink u = true
  · have hs : srCoalesce s u =
        deleteVDI (journalRemove (relinkSkip s u p) .relink u) u := by
      simp only [srCoalesce, hv, hpv, hJ, if_true]
    obtain ⟨hco, hsz⟩ := hrec hJ
    obtain ⟨c1, c2, c3, c4, c5, c6⟩ :=
      srCoalesce_post_aux s u p v pr hv hpv hpr hup hpc hcsu hcsp hco
    rw [hs]
    refine ⟨c1, ?_, ⟨{ pr with children := v.children }, c2, hcsu, hsz⟩,
      ?_, c4, c5⟩
    · rw [c6]
      exact not_mem_erase_of_count_le_one s.files u hfiles
    · intro c hc
      obtain ⟨cr, hcr⟩ := Option.isSome_iff_exists.mp (hex c hc)
      refine ⟨{ cr with parentOnDisk := some p, parent := some p }, ?_, rfl, rfl⟩
      rw [c3 c hc, hcr]
      rfl
  · have hs : srCoalesce s u =
        deleteVDI (journalRemove (relinkSkip
          (journalCreate (journalRemove
            (doCoalesce (journalCreate s .coalesce u) u p) .coalesce u)
            .relink u) u p) .relink u) u := by
      simp only [srCoalesce, hv, hpv, hJ, Bool.false_eq_true, if_false]
    have hdo := doCoalesce_eq (journalCreate s .coalesce u) u p v hv
    have hv1 : getVDI (journalCreate (journalRemove
        (doCoalesce (journalCreate s .coalesce u) u p) .coalesce u)
        .relink u) u = some v := by
      rw [getVDI_journalCreate, getVDI_journalRemove, hdo,
        getVDI_updVDI_other _ p u (fun r =>
          if r.sizeVirt ≥ v.sizeVirt then r else { r with sizeVirt := v.sizeVirt })
          (fun r => grow_uuid v.sizeVirt r) hup]
      exact hv
    have hpr1 : getVDI (journalCreate (journalRemove
        (doCoalesce (journalCreate s .coalesce u) u p) .coalesce u)
        .relink u) p = some (if pr.sizeVirt ≥ v.sizeVirt then pr
          else { pr with sizeVirt := v.sizeVirt }) := by
      rw [getVDI_journalCreate, getVDI_journalRemove, hdo,
        getVDI_updVDI_self _ p (fun r =>
          if r.sizeVirt ≥ v.sizeVirt then r else { r with sizeVirt := v.sizeVirt })
          (fun r => grow_uuid v.sizeVirt r)]
      rw [show getVDI (journalCreate s .coalesce u) p = getVDI s p from rfl, hpr]
      rfl
    have hco1 : journalHas (journalCreate (journalRemove
        (doCoalesce (journalCreate s .coalesce u) u p) .coalesce u)
        .relink u) .coalesce u = false := by
      rw [journalHas_create_other _ .relink u .coalesce u (by simp)]
      exact journalHas_remove_self _ .coalesce u
    have hfileseq : (journalCreate (journalRemove
        (doCoalesce (journalCreate s .coalesce u) u p) .coalesce u)
        .relink u).files = s.files := by
      rw [journalCreate_files, journalRemove_files, doCoalesce_files,
        journalCreate_files]
    obtain ⟨c1, c2, c3, c4, c5, c6⟩ :=
      srCoalesce_post_aux _ u p v _ hv1 hpv hpr1 hup
        (by rw [grow_children]; exact hpc) hcsu hcsp hco1
    rw [hs]
    refine ⟨c1, ?_,
      ⟨{ (if pr.sizeVirt ≥ v.sizeVirt then pr else { pr with sizeVirt := v.sizeVirt })
          with children := v.children }, c2, hcsu, grow_sizeVirt pr v.sizeVirt⟩,
      ?_, c4, c5⟩
    · rw [c6, hfileseq]
      exact not_mem_erase_of_count_le_one s.files u hfiles
    · intro c hc
      have hcu : c ≠ u := fun h => hcsu (h ▸ hc)
      have hcp : c ≠ p := fun h => hcsp (h ▸ hc)
      obtain ⟨cr, hcr⟩ := Option.isSome_iff_exists.mp (hex c hc)
      refine ⟨{ cr with parentOnDisk := some p, parent := some p }, ?_, rfl, rfl⟩
      rw [c3 c hc, getVDI_journalCreate, getVDI_journalRemove, hdo,
        getVDI_updVDI_other _ p c (fun r =>
          if r.sizeVirt ≥ v.sizeVirt then r else { r with sizeVirt := v.sizeVirt })
          (fun r => grow_uuid v.sizeVirt r) hcp]
      rw [show getVDI (journalCreate s .coalesce u) c = getVDI s c from rfl, hcr]
      rfl

def exSR : SRState :=
  { vdis := [⟨1, none, none, [2], 10, false, false⟩,
             ⟨2, some 1, some 1, [3], 20, true, false⟩,
             ⟨3, some 2, some 2, [], 5, false, false⟩],
    vdiTrees := [1], journal := [], files := [1, 2, 3] }

def exV : VDIRec := ⟨2, some 1, some 1, [3], 20, true, false⟩
def exP : VDIRec := ⟨1, none, none, [2], 10, false, false⟩

/-- Witness for `srCoalesce_correct`: the chain 1 ← 2 ← 3 with VDI 2
hidden; coalescing 2 onto 1 removes it and deletes its file. -/
theorem srCoalesce_correct_witness :
    getVDI (srCoalesce exSR 2) 2 = none ∧ 2 ∉ (srCoalesce exSR 2).files :=
  let h := srCoalesce_correct exSR 2 1 exV exP rfl rfl rfl (by decide) rfl
    (by decide) rfl (by decide) (by decide) (by decide) (by decide)
    (fun hj => absurd hj (by decide))
  ⟨h.1, h.2.1⟩

end SMGC
